import Mathlib

/-!
Shallow embedding of `src/mtfifo.py` (class `MTFIFO`), a fixed-size worker
pool that drains a FIFO task queue.

Modelling choices:
- A submitted request is a Python object: either `None` or a dict with
  string keys and first-order values; a Python callable stored in a dict is
  modelled as an opaque reference `Val.fnref`.
- A worker-slot handler (`self.THREADS[i]`) is an opaque Lean function from
  the full request object to `Except String Val`: `Except.error e` models
  the handler raising exception `e`, `Except.ok v` a normal return.
- The mutable pool state (`BUSY_THREADS`, `UNHANDLED`, `running`,
  `thread_count`) is a structure; each method of the class becomes a
  function on that structure.  The concurrent system is modelled as a
  sequence of atomic actions: one dispatcher pass (the body of
  `dispatcher_loop` after the sleep), the completion of one spawned
  `worker` thread, `add_requests`, `Start` and `Stop`.  Callback
  invocations and dispatches are emitted as an event trace.
-/

/-- First-order Python values stored in request dicts.  `fnref` models a
Python callable (only its identity matters to the pool; the pool never
calls values stored inside a request). -/
inductive Val where
  | num (n : Int)
  | str (s : String)
  | fnref (id : Nat)
  deriving DecidableEq, Repr

/-- Python `callable(x)` on a dict value (`callable(None)` is false). -/
def Val.callable : Val → Bool
  | Val.fnref _ => true
  | _ => false

/-- A submitted request object: Python `None` or a dict. -/
inductive PyObj where
  | none
  | dict (fields : List (String × Val))
  deriving DecidableEq, Repr

/-- Python dict lookup `d.get(k)` returning `none` for a missing key. -/
def dictGet (fs : List (String × Val)) (k : String) : Option Val :=
  (fs.find? (fun f => f.1 == k)).map (fun f => f.2)

/-- Truthiness of a request object: `None` is falsy, a dict is truthy iff
non-empty. -/
def PyObj.truthy : PyObj → Bool
  | PyObj.none => false
  | PyObj.dict fs => !fs.isEmpty

/-- `r.get k` lifted to request objects (`None.get` is never reached in the
source because of short-circuiting; we give it `none`). -/
def PyObj.get : PyObj → String → Option Val
  | PyObj.none, _ => Option.none
  | PyObj.dict fs, k => dictGet fs k

/-- A worker-slot handler: one element of `self.THREADS`.  It receives the
entire request object; `Except.error e` models a raised exception. -/
def Handler : Type := PyObj → Except String Val

/-- Values appearing in the argument of the ERROR callback
(`{'req': request, 'error': e}`): a request object or an exception. -/
inductive EVal where
  | obj (r : PyObj)
  | exc (e : String)
  deriving DecidableEq, Repr

/-- Dict lookup for the ERROR-callback argument. -/
def dictGetE (fs : List (String × EVal)) (k : String) : Option EVal :=
  (fs.find? (fun f => f.1 == k)).map (fun f => f.2)

/-- The mutable state of an `MTFIFO` instance.  `busy` is `BUSY_THREADS`
(records `{'index': i, 'request': r}` in append order), `unhandled` the
FIFO queue `UNHANDLED` with its head first, `thread_count` the field set
once in `__init__` from `len(self.THREADS)`. -/
structure Pool where
  threads : List Handler
  thread_count : Nat
  busy : List (Nat × PyObj)
  unhandled : List PyObj
  running : Bool

/-- Observable events of one atomic action, in the order the source
produces them. -/
inductive Event where
  | dispatched (i : Nat) (r : PyObj)
  | successCb (v : Val)
  | errorCb (arg : List (String × EVal))
  | freed (i : Nat)
  | endFired
  deriving DecidableEq, Repr

/-- Constructor options: `THREADS` present or absent. -/
structure PoolOptions where
  THREADS : Option (List Handler)

/-- The state built by `__init__` on success: empty busy list, empty
queue, not running, `thread_count = len(THREADS)`. -/
def initPool (ts : List Handler) : Pool :=
  { threads := ts, thread_count := ts.length, busy := [], unhandled := [],
    running := false }

/-- `MTFIFO.__init__`: raises `ValueError` iff the `THREADS` key is
missing from the options; the list itself is not inspected. -/
def MTFIFO_init (opts : PoolOptions) : Except String Pool :=
  match opts.THREADS with
  | Option.none => Except.error "THREADS param must be defined"
  | Option.some ts => Except.ok (initPool ts)

/-- `MTFIFO.get_free_threads`: indices in `range(thread_count)` whose
index is not in the busy list, in ascending order. -/
def get_free_threads (p : Pool) : List Nat :=
  (List.range p.thread_count).filter
    (fun i => !(p.busy.any (fun b => b.1 == i)))

/-- `MTFIFO.Start`: no-op when already running, else set `running`. -/
def Start (p : Pool) : Pool :=
  if p.running then p else { p with running := true }

/-- `MTFIFO.Stop`: no-op when idle, else clear `running` (the join on the
dispatcher thread has no effect on the state). -/
def Stop (p : Pool) : Pool :=
  if p.running then { p with running := false } else p

/-- The acceptance test of `add_requests`:
`if r and callable(r.get('func'))`. -/
def acceptReq (r : PyObj) : Bool :=
  r.truthy && (match r with
    | PyObj.none => false
    | PyObj.dict fs => (dictGet fs "func").elim false Val.callable)

/-- `MTFIFO.add_requests`: enqueue every accepted request in submission
order, then auto-start when not running. -/
def add_requests (p : Pool) (reqs : List PyObj) : Pool :=
  let p1 := { p with unhandled := p.unhandled ++ reqs.filter acceptReq }
  if p1.running then p1 else Start p1

/-- Calling the method `put` on a Python list: lists have no such
attribute, so the call raises `AttributeError`. -/
def listPut (_xs : List Handler) (_t : Handler) : Except String (List Handler) :=
  Except.error "AttributeError: list object has no attribute put"

/-- The loop body of `add_threads`: for each element that is truthy and
callable (`some` here), call `self.THREADS.put(t)`. -/
def add_threads_loop (cur : List Handler) :
    List (Option Handler) → Except String (List Handler)
  | [] => Except.ok cur
  | t :: ts =>
    match t with
    | Option.some h =>
      match listPut cur h with
      | Except.ok cur2 => add_threads_loop cur2 ts
      | Except.error e => Except.error e
    | Option.none => add_threads_loop cur ts

/-- `MTFIFO.add_threads`: `none` elements model arguments that are falsy
or not callable (skipped); `some h` a callable handler, for which the
source calls `self.THREADS.put(h)`.  `thread_count` is not touched. -/
def add_threads (p : Pool) (ts : List (Option Handler)) :
    Except String Pool :=
  (add_threads_loop p.threads ts).map
    (fun ts2 => { p with threads := ts2 })

/-- `self.THREADS[thread_idx](request)` inside `worker`: an out-of-range
index raises `IndexError`, otherwise the slot handler is applied to the
entire request object. -/
def runHandler (ts : List Handler) (i : Nat) (r : PyObj) :
    Except String Val :=
  match ts.get? i with
  | Option.some h => h r
  | Option.none => Except.error "IndexError"

/-- The argument of the ERROR callback: `{'req': request, 'error': e}`. -/
def errorPayload (request : PyObj) (e : String) : List (String × EVal) :=
  [("req", EVal.obj request), ("error", EVal.exc e)]

/-- Modelled from the spec (not from the source): the spec says the ERROR
callback receives a record of shape `{request, error}`. -/
def errorPayloadSpec (request : PyObj) (e : String) :
    List (String × EVal) :=
  [("request", EVal.obj request), ("error", EVal.exc e)]

/-- Freeing a slot in `worker`:
`[b for b in BUSY_THREADS if b['index'] != thread_idx]`. -/
def freeThread (busy : List (Nat × PyObj)) (i : Nat) :
    List (Nat × PyObj) :=
  busy.filter (fun b => !(b.1 == i))

/-- `MTFIFO.checkIfDone`: when the queue and the busy list are both empty,
call `Stop()` and then fire the END callback. -/
def checkIfDone (p : Pool) : Pool × List Event :=
  if p.unhandled.isEmpty && p.busy.isEmpty then (Stop p, [Event.endFired])
  else (p, [])

/-- The completion-callback invocation of `worker`: SUCCESS with the
handler result on a normal return, ERROR with `{'req': request,
'error': e}` on a raised exception. -/
def cbEvent (ts : List Handler) (i : Nat) (r : PyObj) : Event :=
  match runHandler ts i r with
  | Except.ok v => Event.successCb v
  | Except.error e => Event.errorCb (errorPayload r e)

/-- The body of the spawned `worker` thread for slot `i` executing request
`r`: run the handler, invoke SUCCESS or ERROR, then (in `finally`) free
the slot and run `checkIfDone`. -/
def worker (p : Pool) (i : Nat) (r : PyObj) : Pool × List Event :=
  let cb := cbEvent p.threads i r
  let p1 := { p with busy := freeThread p.busy i }
  let done := checkIfDone p1
  (done.1, cb :: Event.freed i :: done.2)

/-- The FIFO assignment loop of `dispatcher_loop`: walk the free indices
in order; stop as soon as the queue is empty; otherwise pair the next free
index with the head of the queue. -/
def assignFifo : List Nat → List PyObj → List (Nat × PyObj) × List PyObj
  | [], q => ([], q)
  | _ :: _, [] => ([], [])
  | i :: is, r :: q =>
    let rest := assignFifo is q
    ((i, r) :: rest.1, rest.2)

/-- One pass of `dispatcher_loop` (the body after the sleep): read the
free slots; when none are free or the queue is empty do nothing; else
assign requests FIFO style, `handle_request` appending one busy record per
dispatch. -/
def dispatchPass (p : Pool) : Pool × List Event :=
  let free := get_free_threads p
  if free.isEmpty || p.unhandled.isEmpty then (p, [])
  else
    let a := assignFifo free p.unhandled
    ({ p with unhandled := a.2, busy := p.busy ++ a.1 },
     a.1.map (fun d => Event.dispatched d.1 d.2))

/-- Atomic actions of the interleaved system. -/
inductive Act where
  | addRequests (reqs : List PyObj)
  | dispatchPass
  | complete (i : Nat)
  | start
  | stop

/-- One atomic action.  `dispatchPass` runs only while the dispatcher
loop is alive (`running`); `complete i` is the termination of the spawned
worker thread for slot `i` and needs no `running` (daemon threads are not
cancelled by `Stop`). -/
def step (p : Pool) : Act → Pool × List Event
  | Act.addRequests rs => (add_requests p rs, [])
  | Act.dispatchPass => if p.running then dispatchPass p else (p, [])
  | Act.complete i =>
    match p.busy.find? (fun b => b.1 == i) with
    | Option.some b => worker p i b.2
    | Option.none => (p, [])
  | Act.start => (Start p, [])
  | Act.stop => (Stop p, [])

/-- Run a sequence of atomic actions, concatenating the event traces. -/
def run (p : Pool) : List Act → Pool × List Event
  | [] => (p, [])
  | a :: as =>
    let s := step p a
    let rest := run s.1 as
    (rest.1, s.2 ++ rest.2)

/-- States reachable from a freshly constructed pool. -/
inductive Reachable (ts : List Handler) : Pool → Prop where
  | init : Reachable ts (initPool ts)
  | next (p : Pool) (a : Act) : Reachable ts p → Reachable ts (step p a).1

/-- Drained: the queue is empty and no slot is busy. -/
def Drained (p : Pool) : Prop := p.unhandled = [] ∧ p.busy = []

instance (p : Pool) : Decidable (Drained p) := by
  unfold Drained; infer_instance

/-- True on the END event only. -/
def isEndEvent : Event → Bool
  | Event.endFired => true
  | _ => false

/-- Number of END-callback firings in a trace. -/
def endCount (evs : List Event) : Nat := evs.countP isEndEvent

/-- True on dispatch events only. -/
def isDispatchEvent : Event → Bool
  | Event.dispatched _ _ => true
  | _ => false

/-- True on the submission action only. -/
def isAddAction : Act → Bool
  | Act.addRequests _ => true
  | _ => false

/-- True on the actions that can set `running`: submission and `start`. -/
def canStartAction : Act → Bool
  | Act.addRequests _ => true
  | Act.start => true
  | _ => false

/-! ### Concrete handlers, requests and pools used by witnesses -/

/-- Concrete handler that returns normally. -/
def hOK : Handler := fun _ => Except.ok (Val.num 7)

/-- Concrete handler that raises `boom`. -/
def hBoom : Handler := fun _ => Except.error "boom"

/-- Concrete well-formed request. -/
def reqA : PyObj := PyObj.dict [("params", Val.num 1), ("func", Val.fnref 0)]

/-- Second and third concrete requests. -/
def reqB : PyObj := PyObj.dict [("params", Val.num 2), ("func", Val.fnref 0)]

def reqC : PyObj := PyObj.dict [("params", Val.num 3), ("func", Val.fnref 0)]

/-- A pool whose single slot is busy executing `reqA`. -/
def poolBusy : Pool :=
  { threads := [hOK], thread_count := 1, busy := [(0, reqA)],
    unhandled := [], running := true }

/-- A pool whose single slot is busy and whose handler raises. -/
def poolBoom : Pool :=
  { threads := [hBoom], thread_count := 1, busy := [(0, reqA)],
    unhandled := [], running := true }

/-- A pool with one task in flight on slot 0 and two tasks pending. -/
def poolFlight : Pool :=
  { threads := [hOK], thread_count := 1, busy := [(0, reqA)],
    unhandled := [reqB, reqC], running := true }

/-- Sequel of the concrete drain run: one dispatcher pass and the
completion of the dispatched task. -/
def actsC3 : List Act := [Act.dispatchPass, Act.complete 0]

/-- The slot-freeing block of `worker`, at lock granularity: the
`with self.lock` statement of the `finally` clause frees the slot and
releases the lock; `checkIfDone` is called only afterwards, under a
separate lock acquisition, so another worker's freeing or drain check may
interleave in between. -/
def workerFree (p : Pool) (i : Nat) : Pool :=
  { p with busy := freeThread p.busy i }

/-- A pool with two workers, both busy, and an empty queue. -/
def poolTwo : Pool :=
  { threads := [hOK, hOK], thread_count := 2,
    busy := [(0, reqA), (1, reqB)], unhandled := [], running := true }

/-! ### Basic state lemmas -/

@[simp] lemma Start_threads (p : Pool) : (Start p).threads = p.threads := by
  unfold Start; split <;> rfl

@[simp] lemma Start_thread_count (p : Pool) :
    (Start p).thread_count = p.thread_count := by
  unfold Start; split <;> rfl

@[simp] lemma Start_busy (p : Pool) : (Start p).busy = p.busy := by
  unfold Start; split <;> rfl

@[simp] lemma Start_unhandled (p : Pool) :
    (Start p).unhandled = p.unhandled := by
  unfold Start; split <;> rfl

@[simp] lemma Stop_threads (p : Pool) : (Stop p).threads = p.threads := by
  unfold Stop; split <;> rfl

@[simp] lemma Stop_thread_count (p : Pool) :
    (Stop p).thread_count = p.thread_count := by
  unfold Stop; split <;> rfl

@[simp] lemma Stop_busy (p : Pool) : (Stop p).busy = p.busy := by
  unfold Stop; split <;> rfl

@[simp] lemma Stop_unhandled (p : Pool) :
    (Stop p).unhandled = p.unhandled := by
  unfold Stop; split <;> rfl

@[simp] lemma Stop_running (p : Pool) : (Stop p).running = false := by
  unfold Stop; split
  · rfl
  · next h => simp only [Bool.not_eq_true] at h; exact h

@[simp] lemma add_requests_busy (p : Pool) (rs : List PyObj) :
    (add_requests p rs).busy = p.busy := by
  unfold add_requests; dsimp only; split
  · rfl
  · simp

@[simp] lemma add_requests_unhandled (p : Pool) (rs : List PyObj) :
    (add_requests p rs).unhandled = p.unhandled ++ rs.filter acceptReq := by
  unfold add_requests; dsimp only; split
  · rfl
  · simp

/-- `assignFifo` pairs the k-th free index with the k-th queued request
and leaves the rest of the queue. -/
lemma assignFifo_eq (free : List Nat) :
    ∀ q : List PyObj, assignFifo free q = (free.zip q, q.drop free.length) := by
  induction free with
  | nil => intro q; simp [assignFifo]
  | cons i is ih =>
    intro q
    cases q with
    | nil => simp [assignFifo]
    | cons r q => simp [assignFifo, ih q]

/-- The first components of a zip form a sublist of the left list. -/
lemma map_fst_zip_sublist {α β : Type} :
    ∀ (l1 : List α) (l2 : List β), ((l1.zip l2).map Prod.fst).Sublist l1
  | [], _ => by simp
  | _ :: _, [] => by simp
  | a :: l1, b :: l2 => by
    simpa using List.Sublist.cons₂ a (map_fst_zip_sublist l1 l2)

/-- A free index is not the index of any busy record. -/
lemma mem_free_not_busy {p : Pool} {i : Nat} (h : i ∈ get_free_threads p) :
    i ∉ p.busy.map Prod.fst := by
  intro hmem
  rcases List.mem_filter.mp h with ⟨-, hpred⟩
  rcases List.mem_map.mp hmem with ⟨b, hb, hfst⟩
  have hany : p.busy.any (fun b2 => b2.1 == i) = true :=
    List.any_eq_true.mpr ⟨b, hb, by simp [hfst]⟩
  simp [hany] at hpred

/-- Claim C1: in every dispatcher pass the free slot indices are visited
in ascending order; the pass pairs the k-th earliest queued task with the
k-th lowest free index, stops when the queue is empty, and never
dispatches more tasks than there are free slots.  The dispatched pairs
are appended to the busy list and the dispatched prefix leaves the
queue. -/
theorem dispatcher_pass_fifo (p : Pool) :
    List.Pairwise (fun a b => a < b) (get_free_threads p)
    ∧ (dispatchPass p).2
        = ((get_free_threads p).zip p.unhandled).map
            (fun d => Event.dispatched d.1 d.2)
    ∧ (dispatchPass p).1.unhandled
        = p.unhandled.drop (get_free_threads p).length
    ∧ (dispatchPass p).1.busy
        = p.busy ++ (get_free_threads p).zip p.unhandled
    ∧ ((get_free_threads p).zip p.unhandled).length
        ≤ (get_free_threads p).length := by
  refine ⟨(List.pairwise_lt_range p.thread_count).filter _, ?_⟩
  unfold dispatchPass
  dsimp only
  split
  · next hguard =>
    rcases Bool.or_eq_true _ _ |>.mp hguard with hfree | hq
    · have hf : get_free_threads p = [] := List.isEmpty_iff.mp hfree
      simp [hf]
    · have hq2 : p.unhandled = [] := List.isEmpty_iff.mp hq
      simp [hq2]
  · rw [assignFifo_eq]
    refine ⟨rfl, rfl, rfl, ?_⟩
    rw [List.length_zip]
    exact Nat.min_le_left _ _

/-- Claim C5 counterexample: constructing with an *empty* worker list does
not fail; `__init__` only checks that the `THREADS` key is present, so the
empty list is accepted and the slot count is fixed at 0. -/
theorem construct_empty_workers_accepted :
    MTFIFO_init { THREADS := Option.some ([] : List Handler) }
      = Except.ok (initPool [])
    ∧ (initPool ([] : List Handler)).thread_count = 0 :=
  ⟨rfl, rfl⟩

/-- Claim C5 (amended): constructing without the worker-list option fails
immediately with the configuration error; construction with *any* list of
N handlers (including N = 0) succeeds and fixes the slot count at N. -/
theorem construct_requires_workers_key :
    MTFIFO_init { THREADS := Option.none }
      = Except.error "THREADS param must be defined"
    ∧ ∀ ts : List Handler,
        MTFIFO_init { THREADS := Option.some ts } = Except.ok (initPool ts)
        ∧ (initPool ts).thread_count = ts.length :=
  ⟨rfl, fun _ => ⟨rfl, rfl⟩⟩

/-- A dict with a value under key `k` is non-empty. -/
lemma dictGet_isSome_not_nil {fs : List (String × Val)} {k : String}
    {v : Val} (h : dictGet fs k = Option.some v) : fs.isEmpty = false := by
  cases fs with
  | nil => simp [dictGet] at h
  | cons a l => rfl

/-- Claim C6: `add_requests` silently filters submissions — it returns the
new state (no exception, no failure value), appends exactly the accepted
requests to the queue in submission order, and a request is accepted iff
its `func` entry is an invocable value. -/
theorem add_requests_silent_filter (p : Pool) (reqs : List PyObj) :
    (add_requests p reqs).unhandled = p.unhandled ++ reqs.filter acceptReq
    ∧ ∀ r : PyObj,
        (acceptReq r = true
          ↔ ∃ id, r.get "func" = Option.some (Val.fnref id)) := by
  refine ⟨add_requests_unhandled p reqs, ?_⟩
  intro r
  cases r with
  | none => simp [acceptReq, PyObj.truthy, PyObj.get]
  | dict fs =>
    simp only [acceptReq, PyObj.truthy, PyObj.get, Bool.and_eq_true,
      Bool.not_eq_true']
    constructor
    · rintro ⟨-, hc⟩
      cases hd : dictGet fs "func" with
      | none => rw [hd] at hc; exact absurd hc (by simp [Option.elim])
      | some v =>
        rw [hd] at hc
        cases v with
        | num n => exact absurd hc (by simp [Option.elim, Val.callable])
        | str s => exact absurd hc (by simp [Option.elim, Val.callable])
        | fnref id => exact ⟨id, rfl⟩
    · rintro ⟨id, hd⟩
      exact ⟨dictGet_isSome_not_nil hd, by rw [hd]; rfl⟩

/-- Claim C9 (code bug): `add_threads` cannot append worker capacity.
`self.THREADS` is a Python list, and the loop body calls
`self.THREADS.put(t)`, which raises `AttributeError` on the first truthy
callable argument. -/
theorem add_threads_raises_attribute_error (p : Pool) (h : Handler) :
    add_threads p [Option.some h]
      = Except.error "AttributeError: list object has no attribute put" :=
  rfl

/-! ### The completion path -/

/-- The two outcomes of a completed `worker` thread, split on whether the
pool drains when the slot is freed. -/
lemma worker_eq (p : Pool) (i : Nat) (r : PyObj) :
    worker p i r
      = if p.unhandled.isEmpty && (freeThread p.busy i).isEmpty
        then ({ p with busy := freeThread p.busy i, running := false },
              [cbEvent p.threads i r, Event.freed i, Event.endFired])
        else ({ p with busy := freeThread p.busy i },
              [cbEvent p.threads i r, Event.freed i]) := by
  obtain ⟨t, tc, b, u, ru⟩ := p
  unfold worker checkIfDone Stop
  cases ru <;> dsimp only <;> split <;> rfl

/-- The completion callback is never the END event. -/
lemma cbEvent_ne_end (ts : List Handler) (i : Nat) (r : PyObj) :
    isEndEvent (cbEvent ts i r) = false := by
  unfold cbEvent
  split <;> rfl

/-- The completion callback is never a dispatch event. -/
lemma cbEvent_ne_dispatch (ts : List Handler) (i : Nat) (r : PyObj) :
    isDispatchEvent (cbEvent ts i r) = false := by
  unfold cbEvent
  split <;> rfl

/-- Claim C10: executing a dispatched task applies the assigned slot's
handler to the entire request record as its single argument — the outcome
is `h r`, so the pool never invokes the request's own `func` entry — and
the SUCCESS callback receives exactly the handler's return value. -/
theorem execution_applies_slot_handler (p : Pool) (i : Nat) (r : PyObj)
    (h : Handler)
    (hb : p.busy.find? (fun b => b.1 == i) = Option.some (i, r))
    (ht : p.threads.get? i = Option.some h) :
    runHandler p.threads i r = h r
    ∧ ∀ v : Val, h r = Except.ok v →
        ((step p (Act.complete i)).2).head? = Option.some (Event.successCb v) := by
  have hrun : runHandler p.threads i r = h r := by
    unfold runHandler; rw [ht]
  refine ⟨hrun, ?_⟩
  intro v hv
  have : cbEvent p.threads i r = Event.successCb v := by
    unfold cbEvent; rw [hrun, hv]
  simp [step, hb, worker_eq, this]
  split <;> rfl

/-- Witness for C10 at a concrete pool. -/
theorem execution_applies_slot_handler_witness :
    runHandler poolBusy.threads 0 reqA = hOK reqA
    ∧ ∀ v : Val, hOK reqA = Except.ok v →
        ((step poolBusy (Act.complete 0)).2).head?
          = Option.some (Event.successCb v) :=
  execution_applies_slot_handler poolBusy 0 reqA hOK rfl rfl

/-- Claim C4 counterexample: the ERROR callback argument is the dict
`{'req': request, 'error': e}` — it has no key `request`, so it is not a
record of shape `{request, error}` as the claim states. -/
theorem error_payload_key_counterexample :
    (step poolBoom (Act.complete 0)).2
      = [Event.errorCb [("req", EVal.obj reqA), ("error", EVal.exc "boom")],
         Event.freed 0, Event.endFired]
    ∧ dictGetE (errorPayload reqA "boom") "request" = Option.none
    ∧ errorPayload reqA "boom" ≠ errorPayloadSpec reqA "boom" := by
  refine ⟨rfl, rfl, ?_⟩
  decide

/-- Claim C4 (amended): a failure raised by a dispatched task's handler is
caught at that task's boundary — the completion step still frees the slot,
leaves the queue and the other busy records untouched, and routes the
failure to the ERROR callback as `{'req': request, 'error': e}` (key
`req`, not `request`), while SUCCESS receives the handler's return
value. -/
theorem handler_failure_contained (p : Pool) (i : Nat) (r : PyObj)
    (hb : p.busy.find? (fun b => b.1 == i) = Option.some (i, r)) :
    (∀ e : String, runHandler p.threads i r = Except.error e →
      ∃ endEvs, (step p (Act.complete i)).2
        = Event.errorCb [("req", EVal.obj r), ("error", EVal.exc e)]
          :: Event.freed i :: endEvs)
    ∧ (∀ v : Val, runHandler p.threads i r = Except.ok v →
      ∃ endEvs, (step p (Act.complete i)).2
        = Event.successCb v :: Event.freed i :: endEvs)
    ∧ (step p (Act.complete i)).1.unhandled = p.unhandled
    ∧ (step p (Act.complete i)).1.busy = freeThread p.busy i := by
  refine ⟨?_, ?_, ?_, ?_⟩
  · intro e he
    have hcb : cbEvent p.threads i r
        = Event.errorCb [("req", EVal.obj r), ("error", EVal.exc e)] := by
      unfold cbEvent; rw [he]; rfl
    simp only [step, hb, worker_eq]
    split
    · exact ⟨[Event.endFired], by rw [hcb]⟩
    · exact ⟨[], by rw [hcb]⟩
  · intro v hv
    have hcb : cbEvent p.threads i r = Event.successCb v := by
      unfold cbEvent; rw [hv]
    simp only [step, hb, worker_eq]
    split
    · exact ⟨[Event.endFired], by rw [hcb]⟩
    · exact ⟨[], by rw [hcb]⟩
  · simp only [step, hb, worker_eq]
    split <;> rfl
  · simp only [step, hb, worker_eq]
    split <;> rfl

/-- Witness for the amended C4 at a concrete pool whose handler raises. -/
theorem handler_failure_contained_witness :
    (∀ e : String, runHandler poolBoom.threads 0 reqA = Except.error e →
      ∃ endEvs, (step poolBoom (Act.complete 0)).2
        = Event.errorCb [("req", EVal.obj reqA), ("error", EVal.exc e)]
          :: Event.freed 0 :: endEvs)
    ∧ (∀ v : Val, runHandler poolBoom.threads 0 reqA = Except.ok v →
      ∃ endEvs, (step poolBoom (Act.complete 0)).2
        = Event.successCb v :: Event.freed 0 :: endEvs)
    ∧ (step poolBoom (Act.complete 0)).1.unhandled = poolBoom.unhandled
    ∧ (step poolBoom (Act.complete 0)).1.busy = freeThread poolBoom.busy 0 :=
  handler_failure_contained poolBoom 0 reqA rfl

/-- Claim C7: within one task's lifecycle the completion path emits, in
order, the completion callback (SUCCESS or ERROR, determined by running
the handler), then the freeing of the slot, then the result of the drain
check — in particular the slot is freed only after the completion
callback returns.  The hypothesis is the busy record that dispatch
created for the task. -/
theorem completion_event_order (p : Pool) (i : Nat) (r : PyObj)
    (hb : p.busy.find? (fun b => b.1 == i) = Option.some (i, r)) :
    ∃ endEvs,
      (step p (Act.complete i)).2
        = cbEvent p.threads i r :: Event.freed i :: endEvs
      ∧ (endEvs = [] ∨ endEvs = [Event.endFired]) := by
  simp only [step, hb, worker_eq]
  split
  · exact ⟨[Event.endFired], rfl, Or.inr rfl⟩
  · exact ⟨[], rfl, Or.inl rfl⟩

/-- Witness for C7 at a concrete pool. -/
theorem completion_event_order_witness :
    ∃ endEvs,
      (step poolBusy (Act.complete 0)).2
        = cbEvent poolBusy.threads 0 reqA :: Event.freed 0 :: endEvs
      ∧ (endEvs = [] ∨ endEvs = [Event.endFired]) :=
  completion_event_order poolBusy 0 reqA rfl

/-! ### At-most-one task per slot -/

/-- Claim C2: in every reachable state of the pool, each slot index
appears in at most one busy record: the indices of `BUSY_THREADS` are
pairwise distinct.  Records are appended only by a dispatcher pass, which
draws its indices from `get_free_threads` (indices not currently busy,
each listed once), and are removed by the completing worker. -/
theorem busy_index_unique (ts : List Handler) (p : Pool)
    (h : Reachable ts p) : (p.busy.map Prod.fst).Nodup := by
  induction h with
  | init => simp [initPool]
  | next q a hq ih =>
    cases a with
    | addRequests rs => simpa [step] using ih
    | start => simpa [step] using ih
    | stop => simpa [step] using ih
    | dispatchPass =>
      simp only [step]
      split
      · unfold dispatchPass
        dsimp only
        split
        · exact ih
        · rw [assignFifo_eq]
          dsimp only
          rw [List.map_append, List.nodup_append]
          refine ⟨ih, ?_, ?_⟩
          · exact ((map_fst_zip_sublist _ _).nodup
              ((List.nodup_range _).filter _))
          · intro x hx1 hx2
            exact mem_free_not_busy ((map_fst_zip_sublist _ _).subset hx2) hx1
      · exact ih
    | complete i =>
      cases hf : q.busy.find? (fun b => b.1 == i) with
      | none => simpa [step, hf] using ih
      | some b =>
        have hstep : step q (Act.complete i) = worker q i b.2 := by
          simp [step, hf]
        rw [hstep, worker_eq]
        split
        · exact (((List.filter_sublist _).map Prod.fst).nodup ih)
        · exact (((List.filter_sublist _).map Prod.fst).nodup ih)

/-- Witness for C2: the invariant evaluated at a concrete reachable
state. -/
theorem busy_index_unique_witness :
    ((initPool [hOK]).busy.map Prod.fst).Nodup :=
  busy_index_unique [hOK] (initPool [hOK]) Reachable.init

/-! ### Stop leaves in-flight work and pending tasks alone -/

@[simp] lemma run_nil (p : Pool) : run p [] = (p, []) := rfl

lemma run_cons (p : Pool) (a : Act) (as : List Act) :
    run p (a :: as)
      = ((run (step p a).1 as).1, (step p a).2 ++ (run (step p a).1 as).2) :=
  rfl

/-- While the dispatcher is stopped, any sequence of actions that never
starts it (no submission, no `start`) leaves the queue untouched, keeps
the pool stopped, and dispatches nothing. -/
lemma stopped_frozen (acts : List Act) : ∀ p : Pool, p.running = false →
    (∀ a ∈ acts, canStartAction a = false) →
    (run p acts).1.running = false
    ∧ (run p acts).1.unhandled = p.unhandled
    ∧ ∀ e ∈ (run p acts).2, isDispatchEvent e = false := by
  induction acts with
  | nil => intro p hr _; exact ⟨hr, rfl, by simp⟩
  | cons a as ih =>
    intro p hr hacts
    have has : ∀ b ∈ as, canStartAction b = false :=
      fun b hb => hacts b (List.mem_cons_of_mem a hb)
    have ha := hacts a (List.mem_cons_self a as)
    have hstep : (step p a).1.running = false
        ∧ (step p a).1.unhandled = p.unhandled
        ∧ ∀ e ∈ (step p a).2, isDispatchEvent e = false := by
      cases a with
      | addRequests rs => simp [canStartAction] at ha
      | start => simp [canStartAction] at ha
      | stop => refine ⟨by simp [step], by simp [step], by simp [step]⟩
      | dispatchPass => simp [step, hr]
      | complete i =>
        cases hf : p.busy.find? (fun b => b.1 == i) with
        | none => simp [step, hf, hr]
        | some b =>
          have hs : step p (Act.complete i) = worker p i b.2 := by
            simp [step, hf]
          rw [hs, worker_eq]
          split
          · refine ⟨rfl, rfl, ?_⟩
            intro e he
            simp only [List.mem_cons, List.not_mem_nil, or_false] at he
            rcases he with rfl | rfl | rfl
            · exact cbEvent_ne_dispatch _ _ _
            · rfl
            · rfl
          · refine ⟨hr, rfl, ?_⟩
            intro e he
            simp only [List.mem_cons, List.not_mem_nil, or_false] at he
            rcases he with rfl | rfl
            · exact cbEvent_ne_dispatch _ _ _
            · rfl
    obtain ⟨h1, h2, h3⟩ := hstep
    obtain ⟨g1, g2, g3⟩ := ih (step p a).1 h1 has
    rw [run_cons]
    refine ⟨g1, by rw [g2, h2], ?_⟩
    intro e he
    rcases List.mem_append.mp he with h4 | h4
    · exact h3 e h4
    · exact g3 e h4

/-- Claim C8: calling `Stop` with one task in flight and two pending
leaves the pending tasks queued and the in-flight record intact; the
in-flight task still completes, fires its completion callback and frees
its slot, the queue is unchanged; and no task is dispatched by any later
actions until a `start` or a submission occurs. -/
theorem stop_preserves_pending (p : Pool) (i : Nat) (r0 r1 r2 : PyObj)
    (hb : p.busy = [(i, r0)]) (hq : p.unhandled = [r1, r2]) :
    (step p Act.stop).1.unhandled = [r1, r2]
    ∧ (step p Act.stop).1.busy = [(i, r0)]
    ∧ (step p Act.stop).1.running = false
    ∧ (step (step p Act.stop).1 (Act.complete i)).2
        = [cbEvent p.threads i r0, Event.freed i]
    ∧ (step (step p Act.stop).1 (Act.complete i)).1.unhandled = [r1, r2]
    ∧ (step (step p Act.stop).1 (Act.complete i)).1.busy = []
    ∧ ∀ acts : List Act, (∀ a ∈ acts, canStartAction a = false) →
        (run (step p Act.stop).1 acts).1.unhandled = [r1, r2]
        ∧ ∀ e ∈ (run (step p Act.stop).1 acts).2,
            isDispatchEvent e = false := by
  have hfind : p.busy.find? (fun b => b.1 == i) = Option.some (i, r0) := by
    simp [hb]
  have hs : step (step p Act.stop).1 (Act.complete i)
      = worker (Stop p) i r0 := by
    simp [step, hfind]
  refine ⟨by simp [step, hq], by simp [step, hb], by simp [step], ?_, ?_, ?_, ?_⟩
  · rw [hs, worker_eq]
    simp [hq]
  · rw [hs, worker_eq]
    simp [hq]
  · rw [hs, worker_eq]
    simp [hq, hb, freeThread]
  · intro acts hacts
    have hfr := stopped_frozen acts (step p Act.stop).1 (by simp [step]) hacts
    exact ⟨by rw [hfr.2.1]; simp [step, hq], hfr.2.2⟩

/-- Witness for C8 at a concrete pool. -/
theorem stop_preserves_pending_witness :
    (step poolFlight Act.stop).1.unhandled = [reqB, reqC]
    ∧ (step poolFlight Act.stop).1.busy = [(0, reqA)]
    ∧ (step poolFlight Act.stop).1.running = false
    ∧ (step (step poolFlight Act.stop).1 (Act.complete 0)).2
        = [cbEvent poolFlight.threads 0 reqA, Event.freed 0]
    ∧ (step (step poolFlight Act.stop).1 (Act.complete 0)).1.unhandled
        = [reqB, reqC]
    ∧ (step (step poolFlight Act.stop).1 (Act.complete 0)).1.busy = []
    ∧ ∀ acts : List Act, (∀ a ∈ acts, canStartAction a = false) →
        (run (step poolFlight Act.stop).1 acts).1.unhandled = [reqB, reqC]
        ∧ ∀ e ∈ (run (step poolFlight Act.stop).1 acts).2,
            isDispatchEvent e = false :=
  stop_preserves_pending poolFlight 0 reqA reqB reqC rfl rfl

/-! ### Drain detection -/

@[simp] lemma endCount_nil : endCount [] = 0 := rfl

lemma endCount_append (l1 l2 : List Event) :
    endCount (l1 ++ l2) = endCount l1 + endCount l2 :=
  List.countP_append _ _ _

/-- A dispatcher pass emits only dispatch events, never END. -/
lemma endCount_dispatch_events (ds : List (Nat × PyObj)) :
    endCount (ds.map (fun d => Event.dispatched d.1 d.2)) = 0 := by
  rw [endCount, List.countP_eq_zero]
  intro e he
  rcases List.mem_map.mp he with ⟨d, -, rfl⟩
  simp [isEndEvent]

/-- Zipping two non-empty lists is non-empty. -/
lemma zip_ne_nil {α β : Type} {l1 : List α} {l2 : List β}
    (h1 : l1 ≠ []) (h2 : l2 ≠ []) : l1.zip l2 ≠ [] := by
  cases l1 with
  | nil => exact absurd rfl h1
  | cons a l1 =>
    cases l2 with
    | nil => exact absurd rfl h2
    | cons b l2 => simp

/-- A dispatcher pass never produces a drained state from a non-drained
one: either it does nothing, or it moves queued tasks into busy
records. -/
lemma dispatchPass_not_drained {p : Pool}
    (hnd : ¬(p.unhandled = [] ∧ p.busy = [])) :
    ¬((dispatchPass p).1.unhandled = [] ∧ (dispatchPass p).1.busy = []) := by
  unfold dispatchPass
  dsimp only
  split
  · exact hnd
  · next hguard =>
    rw [assignFifo_eq]
    dsimp only
    simp only [Bool.or_eq_true, List.isEmpty_iff, not_or] at hguard
    intro hcon
    rcases hcon with ⟨-, hbusy⟩
    rcases List.append_eq_nil.mp hbusy with ⟨-, hzip⟩
    exact zip_ne_nil hguard.1 hguard.2 hzip

/-- From a drained state, actions other than a submission neither emit
events nor leave the drained set of states. -/
lemma drained_frozen (acts : List Act) : ∀ p : Pool,
    p.unhandled = [] → p.busy = [] →
    (∀ a ∈ acts, isAddAction a = false) →
    (run p acts).2 = []
    ∧ (run p acts).1.unhandled = [] ∧ (run p acts).1.busy = [] := by
  induction acts with
  | nil => intro p hu hb _; exact ⟨rfl, hu, hb⟩
  | cons a as ih =>
    intro p hu hb hacts
    have has : ∀ b ∈ as, isAddAction b = false :=
      fun b hbm => hacts b (List.mem_cons_of_mem a hbm)
    have h2 : (step p a).2 = [] ∧ (step p a).1.unhandled = []
        ∧ (step p a).1.busy = [] := by
      cases a with
      | addRequests rs =>
        exact absurd (hacts _ (List.mem_cons_self _ _))
          (by simp [isAddAction])
      | dispatchPass =>
        have hdp : dispatchPass p = (p, []) := by
          unfold dispatchPass
          dsimp only
          rw [hu]
          simp
        simp [step, hdp, hu, hb]
      | complete i => simp [step, hb, hu]
      | start => simp [step, hu, hb]
      | stop => simp [step, hu, hb]
    obtain ⟨e1, u1, b1⟩ := h2
    obtain ⟨e2, u2, b2⟩ := ih (step p a).1 u1 b1 has
    rw [run_cons]
    exact ⟨by rw [e1, e2]; rfl, u2, b2⟩

/-- The END count of the completion events when the pool drains. -/
lemma endCount_drain_events (ts : List Handler) (i : Nat) (r : PyObj) :
    endCount [cbEvent ts i r, Event.freed i, Event.endFired] = 1 := by
  rw [endCount, List.countP_cons, List.countP_cons, List.countP_cons,
    List.countP_nil, cbEvent_ne_end ts i r]
  simp [isEndEvent]

/-- The END count of the completion events when the pool does not
drain. -/
lemma endCount_nodrain_events (ts : List Handler) (i : Nat) (r : PyObj) :
    endCount [cbEvent ts i r, Event.freed i] = 0 := by
  rw [endCount, List.countP_cons, List.countP_cons, List.countP_nil,
    cbEvent_ne_end ts i r]
  simp [isEndEvent]

/-- Starting from a non-drained state and submitting nothing further, the
run fires END exactly once if it ends drained, and never otherwise. -/
lemma end_once_aux (acts : List Act) : ∀ p : Pool,
    ¬(p.unhandled = [] ∧ p.busy = []) →
    (∀ a ∈ acts, isAddAction a = false) →
    endCount (run p acts).2
      = if (run p acts).1.unhandled = [] ∧ (run p acts).1.busy = []
        then 1 else 0 := by
  induction acts with
  | nil =>
    intro p hnd _
    rw [run_nil]
    dsimp only
    rw [if_neg hnd]
    rfl
  | cons a as ih =>
    intro p hnd hacts
    have has : ∀ b ∈ as, isAddAction b = false :=
      fun b hbm => hacts b (List.mem_cons_of_mem a hbm)
    rw [run_cons]
    dsimp only
    rw [endCount_append]
    cases a with
    | addRequests rs =>
      exact absurd (hacts _ (List.mem_cons_self _ _)) (by simp [isAddAction])
    | start =>
      have hnd2 : ¬((step p Act.start).1.unhandled = []
          ∧ (step p Act.start).1.busy = []) := by
        simpa [step] using hnd
      rw [show endCount (step p Act.start).2 = 0 from rfl, Nat.zero_add]
      exact ih _ hnd2 has
    | stop =>
      have hnd2 : ¬((step p Act.stop).1.unhandled = []
          ∧ (step p Act.stop).1.busy = []) := by
        simpa [step] using hnd
      rw [show endCount (step p Act.stop).2 = 0 from rfl, Nat.zero_add]
      exact ih _ hnd2 has
    | dispatchPass =>
      by_cases hr : p.running
      · have hs : step p Act.dispatchPass = dispatchPass p := by
          simp [step, hr]
        have hnd2 : ¬((step p Act.dispatchPass).1.unhandled = []
            ∧ (step p Act.dispatchPass).1.busy = []) := by
          rw [hs]; exact dispatchPass_not_drained hnd
        have hE : endCount (step p Act.dispatchPass).2 = 0 := by
          rw [hs]
          unfold dispatchPass
          dsimp only
          split
          · rfl
          · rw [assignFifo_eq]
            exact endCount_dispatch_events _
        rw [hE, Nat.zero_add]
        exact ih _ hnd2 has
      · have hs : step p Act.dispatchPass = (p, []) := by
          simp [step, hr]
        rw [hs]
        dsimp only
        rw [show endCount ([] : List Event) = 0 from rfl, Nat.zero_add]
        exact ih _ hnd has
    | complete i =>
      cases hf : p.busy.find? (fun b => b.1 == i) with
      | none =>
        have hs : step p (Act.complete i) = (p, []) := by
          simp [step, hf]
        rw [hs]
        dsimp only
        rw [show endCount ([] : List Event) = 0 from rfl, Nat.zero_add]
        exact ih _ hnd has
      | some b =>
        have hs : step p (Act.complete i) = worker p i b.2 := by
          simp [step, hf]
        rw [hs, worker_eq]
        split
        · next hdr =>
          rcases Bool.and_eq_true _ _ |>.mp hdr with ⟨hu2, hb2⟩
          have hu3 : p.unhandled = [] := List.isEmpty_iff.mp hu2
          have hb3 : freeThread p.busy i = [] := List.isEmpty_iff.mp hb2
          dsimp only
          obtain ⟨e2, u2, b2⟩ := drained_frozen as
            { p with busy := freeThread p.busy i, running := false }
            hu3 hb3 has
          rw [endCount_drain_events, e2, u2]
          rw [if_pos ⟨rfl, b2⟩]
          rfl
        · next hdr =>
          have hnd2 : ¬(p.unhandled = [] ∧ freeThread p.busy i = []) := by
            intro hcon
            rw [hcon.1, hcon.2] at hdr
            simp at hdr
          dsimp only
          rw [endCount_nodrain_events, Nat.zero_add]
          exact ih { p with busy := freeThread p.busy i } hnd2 has

/-- Claim C3 (amended): provided each task's completion path (callback,
slot free, drain check) runs without interleaving with another task's
completion — the atomic `Act.complete` step — a drain episode fires END
exactly once: starting drained, one submission with at least one accepted
task, no further submission, a run that ends drained fires the END
callback exactly once.  And whenever a task completion leaves the queue
empty and no slot busy, that completion clears `running` (`Stop()`) and
its trace ends with the END callback, fired after the completion callback
and the freeing of the slot.  Without the proviso the code can fire END
twice in one episode (see the interleaving below). -/
theorem drain_end_exactly_once (p : Pool) (reqs : List PyObj)
    (rest : List Act)
    (hdrain : p.unhandled = [] ∧ p.busy = [])
    (hreqs : reqs.filter acceptReq ≠ [])
    (hrest : ∀ a ∈ rest, isAddAction a = false)
    (hfinal : (run p (Act.addRequests reqs :: rest)).1.unhandled = []
      ∧ (run p (Act.addRequests reqs :: rest)).1.busy = []) :
    endCount (run p (Act.addRequests reqs :: rest)).2 = 1
    ∧ ∀ (q : Pool) (j : Nat) (r : PyObj),
        q.busy.find? (fun b => b.1 == j) = Option.some (j, r) →
        (step q (Act.complete j)).1.unhandled = []
          ∧ (step q (Act.complete j)).1.busy = [] →
        (step q (Act.complete j)).1.running = false
        ∧ (step q (Act.complete j)).2
            = [cbEvent q.threads j r, Event.freed j, Event.endFired] := by
  constructor
  · have hnd1 : ¬((add_requests p reqs).unhandled = []
        ∧ (add_requests p reqs).busy = []) := by
      intro hcon
      rw [add_requests_unhandled, hdrain.1, List.nil_append] at hcon
      exact hreqs hcon.1
    have hstep1 : step p (Act.addRequests reqs) = (add_requests p reqs, []) :=
      rfl
    rw [run_cons, hstep1] at hfinal ⊢
    dsimp only at hfinal ⊢
    rw [endCount_append, endCount_nil, Nat.zero_add]
    rw [end_once_aux rest (add_requests p reqs) hnd1 hrest]
    rw [if_pos hfinal]
  · intro q j r hfq hdq
    have hs : step q (Act.complete j) = worker q j r := by
      simp [step, hfq]
    rw [hs, worker_eq] at hdq ⊢
    by_cases hcond : (q.unhandled.isEmpty
        && (freeThread q.busy j).isEmpty) = true
    · rw [if_pos hcond]
      exact ⟨rfl, rfl⟩
    · rw [if_neg hcond] at hdq
      exact absurd (by
        dsimp only at hdq
        rw [hdq.1, hdq.2]
        rfl) hcond

/-- Witness for C3 at a concrete run: one worker, one submitted task,
dispatched and completed, END fired once. -/
theorem drain_end_exactly_once_witness :
    (endCount (run (initPool [hOK])
        (Act.addRequests [reqA] :: actsC3)).2 = 1
    ∧ ∀ (q : Pool) (j : Nat) (r : PyObj),
        q.busy.find? (fun b => b.1 == j) = Option.some (j, r) →
        (step q (Act.complete j)).1.unhandled = []
          ∧ (step q (Act.complete j)).1.busy = [] →
        (step q (Act.complete j)).1.running = false
        ∧ (step q (Act.complete j)).2
            = [cbEvent q.threads j r, Event.freed j, Event.endFired]) :=
  drain_end_exactly_once (initPool [hOK]) [reqA] actsC3
    ⟨rfl, rfl⟩ (by decide) (by decide) ⟨rfl, rfl⟩

/-! ### Interleaved completion paths can double-fire END -/

/-- Claim C3 counterexample: with an empty queue and two in-flight tasks,
schedule both workers to run their slot-freeing block before either runs
`checkIfDone` (the source takes the lock separately for the free and for
the check, so this interleaving is allowed).  Both subsequent drain
checks then observe an empty queue and no busy slot, and each fires the
END callback: two END invocations in a single drain episode. -/
theorem drain_double_fire :
    (checkIfDone (workerFree (workerFree poolTwo 0) 1)).2
      = [Event.endFired]
    ∧ (checkIfDone (checkIfDone (workerFree (workerFree poolTwo 0) 1)).1).2
      = [Event.endFired] :=
  ⟨rfl, rfl⟩
